import Mathlib

/-!
Verification of the terminal output multiplexer and line editor of
osu-tourney-helper, shallowly embedded from `src/console.py` and
`src/interactive_console.py`.

Machine strings are modelled as `List Char`; Python `list[str]` buffers that
hold single-character strings are modelled as `List Char` as well.  Cursor
indices are modelled as `Nat`: every place where the Python code could in
principle produce a negative intermediate value is guarded in the source by
the per-keystroke clamp `max(0, min(idx, len))` (interactive_console.py:209),
and the translation notes at each such spot why `Nat` subtraction agrees with
Python integer arithmetic on the reachable inputs.

Terminal byte output is modelled only where a claim is about emitted bytes
(the `Console` write-line path); the purely visual cursor-movement escape
writes inside the editor do not affect the tracked editor state and are
noted where omitted.
-/

namespace OsuTourney

/-! ## AnsiText: `Console.__ansi_color_regex`, `Console.__ansi_escape_regex`,
`Console.remove_escapes`, `Console.remove_escapes_and_colors`, `Console.len`
(console.py:133-156).

The two regexes have the form `\x1b\[\d+(?:;\d+)*[final]` where the final
character class is `[mM]` for colors and `[a-ln-zA-LN-Z]` (every ASCII letter
except `m`/`M`) for the non-color escapes.  A successful match must consume
the entire maximal run of digits-and-semicolons following `\x1b[` (no shorter
prefix can be followed by a letter, since every character of the run is a
digit or `;`), and the run must be non-empty, start and end with a digit and
contain no `;;`: this is exactly what `runOk true` below checks, so the
regex-substitution is modelled by a left-to-right scan that removes a match
and continues right after it (Python `re.sub` is non-overlapping and
leftmost). -/

def isParamChar (c : Char) : Bool := c.isDigit || c = ';'

/-- Shape check for the parameter run `\d+(?:;\d+)*`: the flag records
whether the scanner currently needs a digit (start of a `;`-separated group). -/
def runOk : Bool → List Char → Bool
  | needDigit, [] => !needDigit
  | true, c :: cs => c.isDigit && runOk false cs
  | false, c :: cs =>
      if c.isDigit then runOk false cs
      else if c = ';' then runOk true cs
      else false

/-- Final byte class of `Console.__ansi_color_regex`: `[mM]`. -/
def colorFinal (c : Char) : Bool := c = 'm' || c = 'M'

/-- Final byte class of `Console.__ansi_escape_regex`: `[a-ln-zA-LN-Z]`. -/
def escFinal (c : Char) : Bool := c.isAlpha && !(c = 'm') && !(c = 'M')

/-- Try to match one regex occurrence `\x1b\[\d+(?:;\d+)*[final]` at the head
of the list; on success return the remainder after the match. -/
def csiMatch (finalOk : Char → Bool) : List Char → Option (List Char)
  | a :: b :: r =>
      if a = '\x1b' ∧ b = '[' then
        let run := r.takeWhile isParamChar
        let rest := r.dropWhile isParamChar
        if runOk true run then
          match rest with
          | f :: r2 => if finalOk f then some r2 else none
          | [] => none
        else none
      else none
  | _ => none

/-- Fuelled scanner for `re.sub(regex, '', text)`: at each position remove a
match and continue after it, otherwise keep the character.  The fuel is the
length of the list, which the wrapper `ansiSub` supplies; each step consumes
at least one character, so the zero-fuel case is unreachable from `ansiSub`. -/
def ansiSubFuel (finalOk : Char → Bool) : Nat → List Char → List Char
  | _, [] => []
  | 0, l => l
  | n + 1, c :: cs =>
      match csiMatch finalOk (c :: cs) with
      | some rest => ansiSubFuel finalOk n rest
      | none => c :: ansiSubFuel finalOk n cs

/-- Model of `regex.sub('', text)` for the two ANSI regexes. -/
def ansiSub (finalOk : Char → Bool) (l : List Char) : List Char :=
  ansiSubFuel finalOk l.length l

/-- Python `text.replace(c, '')` for a single character: removes every
occurrence. -/
def pyReplaceEmpty (c : Char) (l : List Char) : List Char :=
  l.filter (fun a => a != c)

/-- Model of `Console.remove_escapes` (console.py:136-146): the escape-regex
substitution followed by the chain of single-character `replace` calls for
`\a \b \r \v \0 \177`, in source order. -/
def remove_escapes (l : List Char) : List Char :=
  pyReplaceEmpty '\x7f' (pyReplaceEmpty '\x00'
    (pyReplaceEmpty '\x0b' (pyReplaceEmpty '\r'
      (pyReplaceEmpty '\x08' (pyReplaceEmpty '\x07'
        (ansiSub escFinal l))))))

/-- Model of `Console.remove_escapes_and_colors` (console.py:148-151): color regex
applied to the result of `remove_escapes`. -/
def remove_escapes_and_colors (l : List Char) : List Char :=
  ansiSub colorFinal (remove_escapes l)

/-- Model of `Console.len` (console.py:153-156). -/
def console_len (l : List Char) : Nat :=
  (remove_escapes_and_colors l).length

/-! ## LineEditor state (`InteractiveConsole.__init__`, interactive_console.py:27-31) -/

structure EState where
  insert_mode : Bool
  history : List (List Char)
  history_idx : Nat
  current_input : List Char
  current_input_idx : Nat
deriving Repr, DecidableEq

/-- Initial editor state (interactive_console.py:27-31). -/
def initState : EState :=
  { insert_mode := false, history := [], history_idx := 0
    current_input := [], current_input_idx := 0 }

/-- Model of `InteractiveConsole.move_cursor_left` (interactive_console.py:107-115).
Only the mutation of `current_input_idx` is modelled; the emitted ANSI
cursor-movement bytes do not affect editor state.  `max(0, idx)` is the
identity on `Nat`. -/
def move_cursor_left (s : EState) (n : Nat) : EState :=
  let max_move := s.current_input_idx
  let n1 := min n max_move
  { s with current_input_idx := s.current_input_idx - n1 }

/-- Model of `InteractiveConsole.move_cursor_right` (interactive_console.py:117-125).
`max(0, len - idx)` coincides with `Nat` subtraction. -/
def move_cursor_right (s : EState) (n : Nat) : EState :=
  let max_move := s.current_input.length - s.current_input_idx
  let n1 := min n max_move
  { s with current_input_idx := s.current_input_idx + n1 }

/-- Model of `InteractiveConsole.erase_current_stdin` (interactive_console.py:56-82).
The cursor is first moved to the end of the visible input, then the input
lines are erased on screen (terminal writes, not tracked) and the buffer and
index are reset. -/
def erase_current_stdin (s : EState) : EState :=
  let max_idx := console_len s.current_input
  let s1 := if s.current_input_idx < max_idx
            then move_cursor_right s (max_idx - s.current_input_idx) else s
  { s1 with current_input := [], current_input_idx := 0 }

/-- Model of `InteractiveConsole.replace_current_stdin_with_history`
(interactive_console.py:84-105).  `history_idx` is an `Int` because the
insert-mode branch passes `-1`.  In the `-1` branch the source moves the
cursor left by `len(prev_input) - prev_pos`; callers reach this only after
the per-keystroke clamp, so `prev_pos <= len(prev_input)` and `Nat`
subtraction agrees with Python. -/
def replace_current_stdin_with_history (s : EState) (history_idx : Int) : EState :=
  let prev_pos := s.current_input_idx
  let prev_input := s.current_input
  let s1 := erase_current_stdin s
  if history_idx = -1 then
    let s2 := { s1 with current_input := prev_input,
                        current_input_idx := prev_input.length }
    move_cursor_left s2 (prev_input.length - prev_pos)
  else if 0 ≤ history_idx ∧ history_idx < (s1.history.length : Int) then
    let entry := s1.history.getD history_idx.toNat []
    { s1 with current_input := entry, current_input_idx := entry.length }
  else s1

/-- Python `str.strip()` restricted to the ASCII whitespace characters
(space, tab, newline, carriage return, vertical tab, form feed); the editor
buffers only ever hold keystroke characters. -/
def pyIsSpace (c : Char) : Bool :=
  c = ' ' || c = '\t' || c = '\n' || c = '\r' || c = '\x0b' || c = '\x0c'

def pyStrip (l : List Char) : List Char :=
  ((l.dropWhile pyIsSpace).reverse.dropWhile pyIsSpace).reverse

/-- Keystrokes dispatched by `InteractiveConsole._readline`
(interactive_console.py:211-383).  `ctrl_v` carries the clipboard text;
`ch` is a printable character (including space).  `other` stands for the
remaining special keys, which fall through to `continue`. -/
inductive Key where
  | enter
  | up
  | down
  | left
  | right
  | ctrl_left
  | ctrl_right
  | home
  | endk
  | backspace
  | delete
  | insert
  | ctrl_v (text : List Char)
  | tab
  | ctrl_r
  | esc
  | other
  | ch (c : Char)
deriving Repr, DecidableEq

/-- One iteration of the keystroke loop of `InteractiveConsole._readline`
(interactive_console.py:207-384): the clamp at line 209 followed by the
per-key branch.  Returns the new state and, for Enter, the submitted line.
Terminal writes (`w.write`) are not tracked here. -/
def applyKey (cap : Nat) (s0 : EState) (k : Key) : EState × Option (List Char) :=
  -- line 209: self.current_input_idx = max(0, min(idx, len)); max(0,·) is
  -- the identity on Nat
  let s := { s0 with current_input_idx := min s0.current_input_idx s0.current_input.length }
  match k with
  | .enter =>
      -- lines 211-221
      let history1 := s.history ++ [s.current_input]
      let history2 := if 0 < cap ∧ cap < history1.length
                      then history1.drop (history1.length - cap) else history1
      let line := pyStrip s.current_input
      ({ s with history := history2, history_idx := history2.length,
                current_input := [], current_input_idx := 0 }, some line)
  | .up =>
      -- lines 223-226
      let hidx : Nat := if s.history_idx > 0 then s.history_idx - 1 else s.history_idx
      let s1 := { s with history_idx := hidx }
      (replace_current_stdin_with_history s1 (hidx : Int), none)
  | .down =>
      -- lines 228-231; `history_idx <= len(history)-1` over Int is
      -- `history_idx < len(history)`
      let hidx : Nat := if s.history_idx < s.history.length
                        then s.history_idx + 1 else s.history_idx
      let s1 := { s with history_idx := hidx }
      (replace_current_stdin_with_history s1 (hidx : Int), none)
  | .left => (move_cursor_left s 1, none)
  | .right => (move_cursor_right s 1, none)
  | .ctrl_left =>
      -- lines 240-247; enumerate(reversed(...), 1) finds the first space at
      -- 1-based position, `findIdx?` is 0-based
      if s.current_input_idx ≤ 1 then (s, none)
      else
        let num_moves_left :=
          match ((s.current_input.take (s.current_input_idx - 1)).reverse).findIdx?
                  (fun c => c = ' ') with
          | some j => j + 1
          | none => s.current_input_idx
        if num_moves_left > 0 then (move_cursor_left s num_moves_left, none)
        else (s, none)
  | .ctrl_right =>
      -- lines 249-257; `idx >= n-1` over Int is `idx+1 >= n`
      let n := s.current_input.length
      if s.current_input_idx + 1 ≥ n then (s, none)
      else
        let num_moves_right :=
          match (s.current_input.drop (s.current_input_idx + 1)).findIdx?
                  (fun c => c = ' ') with
          | some j => j + 2
          | none => n - 1 - s.current_input_idx
        if num_moves_right > 0 then (move_cursor_right s num_moves_right, none)
        else (s, none)
  | .home =>
      -- lines 259-262
      if s.current_input_idx > 0 then
        let s1 := move_cursor_left s s.current_input_idx
        ({ s1 with current_input_idx := 0 }, none)
      else (s, none)
  | .endk =>
      -- lines 264-268
      let n := s.current_input.length
      if s.current_input_idx < n then
        let s1 := move_cursor_right s (n - s.current_input_idx)
        ({ s1 with current_input_idx := n }, none)
      else (s, none)
  | .backspace =>
      -- lines 270-288; `nr >= 0` in the source always holds after the clamp
      let n := s.current_input.length
      if n > 0 ∧ s.current_input_idx > 0 then
        let nr := n - s.current_input_idx
        let s1 := move_cursor_left s 1
        let idx := s1.current_input_idx
        let s2 := { s1 with current_input_idx := n }
        let s3 := move_cursor_left s2 (nr + 1)
        let input1 := if idx < n then s3.current_input.eraseIdx idx
                      else s3.current_input.dropLast
        ({ s3 with current_input := input1 }, none)
      else (s, none)
  | .delete =>
      -- lines 290-306
      let n := s.current_input.length
      let nr := n - s.current_input_idx
      if n > 0 ∧ nr > 0 then
        let idx := s.current_input_idx
        let s2 := { s with current_input_idx := n }
        let s3 := move_cursor_left s2 nr
        let input1 := if idx < n then s3.current_input.eraseIdx idx
                      else s3.current_input.dropLast
        ({ s3 with current_input := input1 }, none)
      else (s, none)
  | .insert =>
      -- lines 308-311
      let s1 := { s with insert_mode := !s.insert_mode }
      (replace_current_stdin_with_history s1 (-1), none)
  | .ctrl_v text =>
      -- lines 313-345
      if s.current_input_idx ≥ s.current_input.length then
        ({ s with current_input := s.current_input ++ text,
                  current_input_idx := s.current_input_idx + text.length }, none)
      else if !s.insert_mode then
        let idx := s.current_input_idx
        let rhs := s.current_input.drop s.current_input_idx
        let s2 := { s with current_input_idx := s.current_input.length + text.length }
        let s3 := move_cursor_left s2 rhs.length
        let next_input := s.current_input.take idx ++ text ++ rhs
        ({ s3 with current_input := next_input }, none)
      else
        let rhs := s.current_input.drop (s.current_input_idx + text.length)
        let next_input := s.current_input.take s.current_input_idx ++ text ++ rhs
        ({ s with current_input := next_input,
                  current_input_idx := s.current_input_idx + text.length }, none)
  | .tab => (s, none)
  | .ctrl_r => (s, none)
  | .esc => (s, none)
  | .other => (s, none)
  | .ch c =>
      -- lines 364-383
      if s.current_input_idx ≥ s.current_input.length then
        ({ s with current_input := s.current_input ++ [c],
                  current_input_idx := s.current_input_idx + 1 }, none)
      else if s.insert_mode then
        ({ s with current_input := s.current_input.set s.current_input_idx c,
                  current_input_idx := s.current_input_idx + 1 }, none)
      else
        let n := s.current_input.length - s.current_input_idx
        let input1 := s.current_input.insertIdx s.current_input_idx c
        let s2 := { s with current_input := input1,
                           current_input_idx := input1.length }
        (move_cursor_left s2 n, none)

/-- State projection of `applyKey`. -/
def stepKey (cap : Nat) (s : EState) (k : Key) : EState :=
  (applyKey cap s k).1

/-- Run a sequence of keystrokes. -/
def runKeys (cap : Nat) (s : EState) (ks : List Key) : EState :=
  ks.foldl (stepKey cap) s

/-- Quit-sentinel check of `InteractiveConsole.main_loop`
(interactive_console.py:166).  Python `str.lower()` restricted to ASCII. -/
def pyLower (l : List Char) : List Char := l.map Char.toLower

def isQuitLine (line : List Char) : Bool :=
  pyLower line = "\\q".toList || pyLower line = "!q".toList ||
  pyLower line = "\\quit".toList || pyLower line = "!quit".toList

inductive LoopAction where
  | skip
  | quit
  | forward (line : List Char)
deriving Repr, DecidableEq

/-- What `InteractiveConsole.main_loop` does with a finished line
(interactive_console.py:162-174): an empty line is skipped, a quit sentinel
shuts the bot down, anything else is forwarded via `send_bot_command`. -/
def mainLoopAction (line : List Char) : LoopAction :=
  if line = [] then .skip
  else if isQuitLine line then .quit
  else .forward line

/-! ## OutputMultiplexer: `Console` write path (console.py:51-560).

The tracked state is the pending console buffers, the writer-identity
marker `_last_source`, the color flag, and the four registered callbacks
(modelled as constants since the claims quantify over a single call).
Raw terminal writes are collected into an emitted list of strings where a
claim is about emitted bytes; writes that affect neither the tracked state
nor an emitted-bytes claim (the cursor-position query of
`Console.get_cursor_pos`) are noted where omitted. -/

structure CState where
  last_source : String
  console_stdout : List String
  console_stderr : List String
  enable_colors : Bool
  get_console_prompt : Option (List String)
  get_console_stdout : Option (List String)
  get_console_stderr : Option (List String)
  get_console_cursor_offset : Option Nat
deriving Repr, DecidableEq

/-- Test whether `pat` is a prefix of `s` (used to model Python
`str.endswith` on reversed lists and substring search). -/
def leadsWith : List Char → List Char → Bool
  | [], _ => true
  | _ :: _, [] => false
  | a :: as, b :: bs => a = b && leadsWith as bs

/-- Python `s.endswith(pat)`. -/
def strEndsWith (s pat : String) : Bool :=
  leadsWith pat.toList.reverse s.toList.reverse

/-- Substring occurrence test: does `pat` occur contiguously in `l`? -/
def hasSeq (pat : List Char) : List Char → Bool
  | [] => pat.isEmpty
  | c :: t => leadsWith pat (c :: t) || hasSeq pat t

def removeEscapesStr (s : String) : String := String.mk (remove_escapes s.toList)

def consoleLenStr (s : String) : Nat := console_len s.toList

/-- Model of `Console._format_text` (console.py:231-238). -/
def formatTextStr (enable : Bool) (t : String) : String :=
  if t = "" then ""
  else if enable then t
  else String.mk (ansiSub colorFinal t.toList)

/-- Model of `Console._get_console_stdout` (console.py:92-98): the callback if
registered, else the raw buffer; joined and escape-stripped. -/
def getConsoleStdoutStr (st : CState) : String :=
  removeEscapesStr (String.join (st.get_console_stdout.getD st.console_stdout))

/-- Model of `Console._get_console_stderr` (console.py:100-106). -/
def getConsoleStderrStr (st : CState) : String :=
  removeEscapesStr (String.join (st.get_console_stderr.getD st.console_stderr))

/-- Model of `Console._get_console_prompt` (console.py:84-90); the fallback when no
callback is registered is `Console._console_stdout`, as in the source. -/
def getConsolePromptStr (st : CState) : String :=
  removeEscapesStr (String.join (st.get_console_prompt.getD st.console_stdout))

/-- Model of `Console._get_console_cursor_offset` (console.py:108-115). -/
def getCursorOffset (st : CState) : Nat :=
  match st.get_console_cursor_offset with
  | some n => n
  | none => consoleLenStr (getConsoleStdoutStr st)

def bufferOf (st : CState) (target_name : String) : List String :=
  if target_name = "stderr" then st.console_stderr else st.console_stdout

def setBufferOf (st : CState) (target_name : String) (b : List String) : CState :=
  if target_name = "stderr" then { st with console_stderr := b }
  else { st with console_stdout := b }

/-- Model of `Console.__console_write` (console.py:249-288).  Only the tracked state
is modelled: the terminal writes in lines 260-273 (including the
cursor-position query) change neither buffer nor marker.  The buffer is
cleared when the formatted text ends with a newline, otherwise the
escape-stripped text is appended; afterwards the joined buffer, lowercased,
is cleared again if it ends with the literal two-character markers
`ESC 1 k` / `ESC 2 k` (lines 282-286); finally the marker is set to the
console (line 288). -/
def console_write (st : CState) (target_name : String) (text : String) : CState :=
  let text1 := formatTextStr st.enable_colors text
  let buffer := bufferOf st target_name
  let buffer1 := if strEndsWith text1 "\n" then []
                 else buffer ++ [removeEscapesStr text1]
  let bufstr := String.mk (pyLower (String.join buffer1).toList)
  let buffer2 := if strEndsWith bufstr "\x1b1k" || strEndsWith bufstr "\x1b2k" then []
                 else buffer1
  { setBufferOf st target_name buffer2 with last_source := "c" }

/-- Model of `Console.move_cursor_left_relative` (console.py:344-372), restricted to
its emitted bytes (it mutates no tracked state).  `n` is clamped to
`cursor_offset`; the callers of interest pass non-negative arguments so the
`n < 0` branch (line 355) is dead and `Nat` suffices.  Python `divmod`
raises on `maxcols = 0`; terminals report positive widths, and the model
uses `Nat` division (0) there. -/
def move_cursor_left_relative_emit (n cursor_offset maxcols : Nat) : List String :=
  let n1 := min n cursor_offset
  if n1 = 0 then []
  else
    let cursor_off := cursor_offset % maxcols
    let col_target : Int := (cursor_off : Int) - (n1 : Int)
    if 0 ≤ col_target then ["\x1b[" ++ toString n1 ++ "D"]
    else
      let m := (-col_target).toNat
      let nrows := m / maxcols + 1
      let ncols := m % maxcols
      ["\x1b[" ++ toString nrows ++ "A", "\r"] ++
        (if 0 < maxcols - ncols then ["\x1b[" ++ toString (maxcols - ncols) ++ "C"] else [])

/-- Model of `Console.erase_console_output` (console.py:314-342), restricted to its
emitted bytes (it reads but does not write the tracked state).  Note that
the final erase of the current line (lines 338-341) is outside the
`console_output_len > 0` guard and is emitted whenever the last writer was
the console. -/
def erase_console_output_emit (st : CState) (maxcols : Nat) (target_name : String) :
    List String :=
  if st.last_source ≠ "c" then []
  else
    let console_output := if target_name = "stderr" then getConsoleStderrStr st
                          else getConsoleStdoutStr st
    let len0 := consoleLenStr console_output
    (if 0 < len0 then
      let off := getCursorOffset st
      let num_lines := 1 + len0 / maxcols
      move_cursor_left_relative_emit off off maxcols ++
        (List.replicate (num_lines - 1) ["\r", "\x1b[2K", "\x1b[1A"]).flatten
     else []) ++ ["\r", "\x1b[2K", "\x1b[0m"]

/-- Python `text.rstrip(' \t\b').endswith('\n')` (console.py:524,546). -/
def rstripEndsNewline (s : String) : Bool :=
  match s.toList.reverse.dropWhile (fun c => c = ' ' || c = '\t' || c = '\x08') with
  | '\n' :: _ => true
  | _ => false

/-- Python `s.rstrip('\n')` (console.py:550). -/
def pyRstripNl (s : String) : String :=
  String.mk ((s.toList.reverse.dropWhile (fun c => c = '\n')).reverse)

/-- Lookup table of `Console.__writeln`, the `Console._fg_colors.get(fg, '')` call
(console.py:75-81,242). -/
def fgColor : Option String → String
  | some "blue" => "\x1b[38;5;45m"
  | some "gray" => "\x1b[38;5;247m"
  | some "yellow" => "\x1b[38;5;227m"
  | some "red" => "\x1b[38;5;160m"
  | some "bright-red" => "\x1b[38;5;196m"
  | _ => ""

/-- Model of `Console._bg_colors`: the empty dict (console.py:82), so the lookup
always yields the empty string. -/
def bgColor (_ : Option String) : String := ""

/-- Model of one `Console.LockedWriter` session consisting of `__enter__`, a single
`writeln(line)`, and `__exit__` (console.py:506-560), as performed by
`Console.__writeln` (console.py:240-247).  Returns the new tracked state and
the list of strings written to the target stream, in order. -/
def locked_writeln (st : CState) (maxcols : Nat) (target_name source : String)
    (line : String) : CState × List String :=
  -- __enter__ (lines 506-519)
  let last_source := st.last_source
  let skip := last_source = "c" ∧ source = "c"
  let prev_console_output :=
    if skip then ""
    else if target_name = "stderr" then getConsoleStderrStr st
    else
      let p := getConsoleStdoutStr st
      if p = "" then getConsolePromptStr st else p
  let emitted_enter := if skip then [] else erase_console_output_emit st maxcols target_name
  -- writeln (lines 521-529)
  let t := formatTextStr st.enable_colors line
  let t1 := if rstripEndsNewline t then t else t ++ "\n"
  let buf1 := if source = "c" then [] else bufferOf st target_name
  -- __exit__ (lines 543-560)
  let last_text_ends := rstripEndsNewline t1
  let exit_nl := if skip then [] else if last_text_ends then [] else ["\n"]
  let prev_out := pyRstripNl (formatTextStr st.enable_colors prev_console_output)
  let exit_prev := if skip then [] else if 0 < consoleLenStr prev_out then [prev_out] else []
  let rewrote := (¬ skip) ∧ 0 < consoleLenStr prev_out
  let buf2 := if source = "c" ∧ last_text_ends then [] else buf1
  let st1 := { setBufferOf st target_name buf2 with
                 last_source := if rewrote then "c" else source }
  (st1, emitted_enter ++ [t1] ++ exit_nl ++ exit_prev)

/-- Model of `Console.writeln` (console.py:291-292) via `Console.__writeln`
(console.py:240-247): wraps the line in the looked-up colors (when any) and
runs a `LockedWriter` session on stdout with a non-console source. -/
def writeln_op (st : CState) (maxcols : Nat) (text : String)
    (fg bg : Option String) : CState × List String :=
  let f := fgColor fg
  let b := bgColor bg
  let line := if f ≠ "" ∨ b ≠ "" then f ++ b ++ text ++ "\x1b[0m" else text
  locked_writeln st maxcols "stdout" "" line

/-! ## Auxiliary definitions used by the claim statements -/

/-- Submit a sequence of buffers: for each buffer, the editor holds it as
the current input and Enter is pressed (the Enter branch reads only
`current_input`, `history` and the cap). -/
def submitAll (cap : Nat) (bs : List (List Char)) (s : EState) : EState :=
  bs.foldl (fun st b => stepKey cap { st with current_input := b } Key.enter) s

/-- Keep only the most recent `cap` entries (`history = history[i:]` with
`i = len(history) - cap`, interactive_console.py:214-215; drops nothing
when the length is within the cap). -/
def trimHist (cap : Nat) (l : List (List Char)) : List (List Char) :=
  l.drop (l.length - cap)

/-- Visible length as the spec words it for claim C5:
`len(strip_escapes(strip_colors(s)))`, colors stripped first.  The code
(console.py:148-156) composes the two strips in the opposite order. -/
def visible_len_claimed (l : List Char) : Nat :=
  (remove_escapes (ansiSub colorFinal l)).length

/-- Fused single-pass scanner for the claimed characterization of
`remove_escapes` (claim C9): at each position remove a whole non-color
escape-regex match, or drop a control byte satisfying `ctl`, and leave every
other character unchanged — so malformed escape fragments pass through, and
the function is total.  Fuel as in `ansiSubFuel`. -/
def stripScanFuel (ctl : Char → Bool) : Nat → List Char → List Char
  | _, [] => []
  | 0, l => l
  | n + 1, c :: cs =>
      match csiMatch escFinal (c :: cs) with
      | some rest => stripScanFuel ctl n rest
      | none => if ctl c then stripScanFuel ctl n cs else c :: stripScanFuel ctl n cs

/-- The control bytes listed by claim C9: bell, backspace, vertical tab,
null, delete. -/
def ctlClaimed (c : Char) : Bool :=
  c = '\x07' || c = '\x08' || c = '\x0b' || c = '\x00' || c = '\x7f'

/-- The control bytes the code actually removes: the claimed five plus
carriage return (console.py:145 also does `.replace('\r', '')`). -/
def ctlAmended (c : Char) : Bool := ctlClaimed c || c = '\r'

/-- Modelled from the claim (C9): removes exactly the non-color ANSI CSI
sequences (the numeric-parameter form the code's regex denotes) plus the
five listed control bytes, leaving every other character unchanged. -/
def strip_escapes_claimed (l : List Char) : List Char :=
  stripScanFuel ctlClaimed l.length l

/-- The amended characterization: carriage return is removed as well. -/
def strip_escapes_amended (l : List Char) : List Char :=
  stripScanFuel ctlAmended l.length l

/-- A fresh console state: no pending output on either stream, last writer
not the console, colors enabled, no callbacks registered. -/
def baseCState : CState :=
  { last_source := "", console_stdout := [], console_stderr := []
    enable_colors := true, get_console_prompt := none, get_console_stdout := none
    get_console_stderr := none, get_console_cursor_offset := none }

/-- Editor state exhibiting the history round-trip failure: one history
entry, fresh history cursor, and a non-empty live input line. -/
def liveInputState : EState :=
  { insert_mode := false, history := [['a']], history_idx := 1
    current_input := ['x'], current_input_idx := 1 }

/-- Start state of the word-jump scenario: buffer `"foo bar baz"`, cursor
at the end. -/
def wordJumpStart : EState :=
  { insert_mode := false, history := [], history_idx := 0
    current_input := "foo bar baz".toList, current_input_idx := 11 }

/-- The erase-line escape sequence the console writes (`'\x1b[2K'`). -/
def eraseSeq : List Char := "\x1b[2K".toList

/-! ## Shared helper lemmas -/

theorem getLast?_drop_of_lt {α} (l : List α) (k : Nat) (h : k < l.length) :
    (l.drop k).getLast? = l.getLast? := by
  induction k generalizing l with
  | zero => simp
  | succ k ih =>
      cases l with
      | nil => simp at h
      | cons a t =>
          simp only [List.drop_succ_cons]
          have ht : k < t.length := by simpa using h
          rw [ih t ht]
          cases t with
          | nil => simp at ht
          | cons b u => simp

theorem trimHist_length_le (cap : Nat) (l : List (List Char)) :
    (trimHist cap l).length ≤ cap := by
  simp [trimHist]; omega

theorem trimHist_compose (cap : Nat) (xs ys : List (List Char)) :
    trimHist cap (trimHist cap xs ++ ys) = trimHist cap (xs ++ ys) := by
  have key : ∀ u v : List (List Char), v.length = cap →
      trimHist cap (v ++ ys) = trimHist cap ((u ++ v) ++ ys) := by
    intro u v hv
    unfold trimHist
    have h1 : (v ++ ys).length - cap = ys.length := by simp [hv]
    have h2 : ((u ++ v) ++ ys).length - cap = u.length + ys.length := by
      simp [hv]; omega
    rw [h1, h2, List.append_assoc, List.drop_append]
  rcases le_or_lt xs.length cap with h | h
  · have h0 : xs.length - cap = 0 := Nat.sub_eq_zero_of_le h
    simp [trimHist, h0]
  · have hv : (xs.drop (xs.length - cap)).length = cap := by simp; omega
    have hk := key (xs.take (xs.length - cap)) (xs.drop (xs.length - cap)) hv
    rw [List.take_append_drop] at hk
    simpa [trimHist] using hk

theorem enter_history (cap : Nat) (st : EState) (b : List Char) (hcap : 0 < cap) :
    (stepKey cap { st with current_input := b } Key.enter).history
      = trimHist cap (st.history ++ [b]) := by
  simp only [stepKey, applyKey, trimHist]
  split
  · rfl
  · next hneg =>
      have hle : (st.history ++ [b]).length ≤ cap := by
        rcases Decidable.not_and_iff_or_not.mp hneg with h | h
        · omega
        · simpa using Nat.le_of_not_lt h
      rw [Nat.sub_eq_zero_of_le hle, List.drop_zero]

theorem submitAll_history (cap : Nat) (hcap : 0 < cap) (bs : List (List Char)) :
    ∀ st : EState, st.history.length ≤ cap →
      (submitAll cap bs st).history = trimHist cap (st.history ++ bs) := by
  induction bs with
  | nil => intro st hst; simp [submitAll, trimHist, Nat.sub_eq_zero_of_le hst]
  | cons b bs ih =>
      intro st hst
      have hstep := enter_history cap st b hcap
      have hres := ih (stepKey cap { st with current_input := b } Key.enter)
        (by rw [hstep]; exact trimHist_length_le cap _)
      rw [hstep] at hres
      calc (submitAll cap (b :: bs) st).history
          = (submitAll cap bs (stepKey cap { st with current_input := b } Key.enter)).history := by
            simp [submitAll]
        _ = trimHist cap (trimHist cap (st.history ++ [b]) ++ bs) := hres
        _ = trimHist cap ((st.history ++ [b]) ++ bs) := trimHist_compose cap _ bs
        _ = trimHist cap (st.history ++ b :: bs) := by simp

theorem submitAll_fresh (cap : Nat) (bs : List (List Char)) (hne : bs ≠ []) :
    ∀ st : EState, (submitAll cap bs st).current_input = []
      ∧ (submitAll cap bs st).current_input_idx = 0 := by
  induction bs with
  | nil => exact absurd rfl hne
  | cons b bs ih =>
      intro st
      cases bs with
      | nil => simp [submitAll, stepKey, applyKey]
      | cons b2 bs2 =>
          have := ih (by simp) (stepKey cap { st with current_input := b } Key.enter)
          simpa [submitAll] using this

theorem move_cursor_left_input (s : EState) (n : Nat) :
    (move_cursor_left s n).current_input = s.current_input := rfl

theorem move_cursor_right_input (s : EState) (n : Nat) :
    (move_cursor_right s n).current_input = s.current_input := rfl

theorem replace_inv (s : EState) (i : Int) :
    (replace_current_stdin_with_history s i).current_input_idx
      ≤ (replace_current_stdin_with_history s i).current_input.length := by
  unfold replace_current_stdin_with_history
  dsimp only
  split
  · simp [move_cursor_left]
  · split
    · simp
    · simp [erase_current_stdin]

set_option maxHeartbeats 2000000 in
theorem stepKey_cursor_le (cap : Nat) (s : EState) (k : Key) :
    (stepKey cap s k).current_input_idx ≤ (stepKey cap s k).current_input.length := by
  cases k with
  | enter => simp [stepKey, applyKey]
  | up => exact replace_inv _ _
  | down => exact replace_inv _ _
  | insert => exact replace_inv _ _
  | left =>
      simp only [stepKey, applyKey, move_cursor_left]
      try simp
      try omega
  | right =>
      simp only [stepKey, applyKey, move_cursor_right]
      try simp
      try omega
  | ctrl_left =>
      simp only [stepKey, applyKey]
      split
      · try simp
        try omega
      · split <;> try simp [move_cursor_left] <;> try omega
  | ctrl_right =>
      simp only [stepKey, applyKey]
      split
      · try simp
        try omega
      · split <;> try simp [move_cursor_right] <;> try omega
  | home =>
      simp only [stepKey, applyKey]
      split <;> try simp [move_cursor_left] <;> try omega
  | endk =>
      simp only [stepKey, applyKey]
      split <;> try simp [move_cursor_right] <;> try omega
  | backspace =>
      simp only [stepKey, applyKey]
      split
      · next hcond =>
          simp only [move_cursor_left]
          split
          · next hlt =>
              try simp only [EState.current_input_idx, EState.current_input] at *
              try simp [List.length_eraseIdx_of_lt (by simpa using hlt)]
              try omega
          · try simp
            try omega
      · try simp
        try omega
  | delete =>
      simp only [stepKey, applyKey]
      split
      · next hcond =>
          simp only [move_cursor_left]
          split
          · next hlt =>
              try simp only [EState.current_input_idx, EState.current_input] at *
              try simp [List.length_eraseIdx_of_lt (by simpa using hlt)]
              try (have hlen := List.length_eraseIdx_add_one hlt; omega)
          · try simp
            try omega
      · try simp
        try omega
  | ctrl_v text =>
      simp only [stepKey, applyKey]
      split
      · try simp
        try omega
      · split
        · try simp [move_cursor_left]
          try omega
        · try simp
          try omega
  | tab =>
      simp [stepKey, applyKey]
      try omega
  | ctrl_r =>
      simp [stepKey, applyKey]
      try omega
  | esc =>
      simp [stepKey, applyKey]
      try omega
  | other =>
      simp [stepKey, applyKey]
      try omega
  | ch c =>
      simp only [stepKey, applyKey]
      split
      · next hge =>
          simp at hge ⊢
          try omega
      · split
        · next hins =>
            try simp
            try omega
        · next hge hins =>
            have hlt : min s.current_input_idx s.current_input.length
                < s.current_input.length := by
              simp at hge; omega
            try simp [move_cursor_left,
                      List.length_insertIdx _ _ (Nat.le_of_lt hlt)]
            try omega

theorem erase_keeps_history (s : EState) :
    (erase_current_stdin s).history = s.history := by
  unfold erase_current_stdin
  dsimp only
  split <;> rfl

theorem erase_keeps_history_idx (s : EState) :
    (erase_current_stdin s).history_idx = s.history_idx := by
  unfold erase_current_stdin
  dsimp only
  split <;> rfl

theorem replace_keeps_history (s : EState) (i : Int) :
    (replace_current_stdin_with_history s i).history = s.history := by
  unfold replace_current_stdin_with_history
  dsimp only
  split
  · exact erase_keeps_history s
  · split
    · exact erase_keeps_history s
    · exact erase_keeps_history s

theorem replace_keeps_history_idx (s : EState) (i : Int) :
    (replace_current_stdin_with_history s i).history_idx = s.history_idx := by
  unfold replace_current_stdin_with_history
  dsimp only
  split
  · exact erase_keeps_history_idx s
  · split
    · exact erase_keeps_history_idx s
    · exact erase_keeps_history_idx s

theorem replace_at_length (s : EState) :
    (replace_current_stdin_with_history s ((s.history.length : Nat) : Int)).current_input = []
    ∧ (replace_current_stdin_with_history s ((s.history.length : Nat) : Int)).current_input_idx
        = 0 := by
  unfold replace_current_stdin_with_history
  dsimp only
  rw [if_neg (by omega), if_neg]
  · exact ⟨rfl, rfl⟩
  · rw [erase_keeps_history]
    omega

theorem step_up_history (cap : Nat) (s : EState) :
    (stepKey cap s Key.up).history = s.history := by
  simp only [stepKey, applyKey]
  rw [replace_keeps_history]

theorem step_up_history_idx (cap : Nat) (s : EState) :
    (stepKey cap s Key.up).history_idx
      = if 0 < s.history_idx then s.history_idx - 1 else s.history_idx := by
  simp only [stepKey, applyKey]
  rw [replace_keeps_history_idx]

theorem step_down_history (cap : Nat) (s : EState) :
    (stepKey cap s Key.down).history = s.history := by
  simp only [stepKey, applyKey]
  rw [replace_keeps_history]

theorem step_down_history_idx (cap : Nat) (s : EState) :
    (stepKey cap s Key.down).history_idx
      = if s.history_idx < s.history.length then s.history_idx + 1 else s.history_idx := by
  simp only [stepKey, applyKey]
  rw [replace_keeps_history_idx]

theorem step_down_clears (cap : Nat) (s : EState)
    (h : s.history_idx + 1 = s.history.length) :
    (stepKey cap s Key.down).current_input = []
    ∧ (stepKey cap s Key.down).current_input_idx = 0 := by
  have hlt : s.history_idx < s.history.length := by omega
  simp only [stepKey, applyKey]
  have harg : (if s.history_idx < s.history.length
      then s.history_idx + 1 else s.history_idx) = s.history.length := by
    rw [if_pos hlt]; omega
  simp only [harg]
  exact replace_at_length _

theorem runKeys_cons (cap : Nat) (s : EState) (k : Key) (ks : List Key) :
    runKeys cap s (k :: ks) = runKeys cap (stepKey cap s k) ks := rfl

theorem upN_facts (cap : Nat) (j : Nat) :
    ∀ s : EState, j ≤ s.history_idx →
      (runKeys cap s (List.replicate j Key.up)).history = s.history
      ∧ (runKeys cap s (List.replicate j Key.up)).history_idx = s.history_idx - j := by
  induction j with
  | zero => intro s _; simp [runKeys]
  | succ j ih =>
      intro s hj
      rw [List.replicate_succ, runKeys_cons]
      have hpos : 0 < s.history_idx := by omega
      have hidx : (stepKey cap s Key.up).history_idx = s.history_idx - 1 := by
        rw [step_up_history_idx, if_pos hpos]
      have := ih (stepKey cap s Key.up) (by omega)
      rw [hidx, step_up_history] at this
      refine ⟨this.1, ?_⟩
      rw [this.2]
      omega

theorem downN_clears (cap : Nat) (j : Nat) :
    ∀ s : EState, 1 ≤ j → j ≤ s.history.length →
      s.history_idx = s.history.length - j →
      (runKeys cap s (List.replicate j Key.down)).history = s.history
      ∧ (runKeys cap s (List.replicate j Key.down)).history_idx = s.history.length
      ∧ (runKeys cap s (List.replicate j Key.down)).current_input = []
      ∧ (runKeys cap s (List.replicate j Key.down)).current_input_idx = 0 := by
  induction j with
  | zero => intro s h1; omega
  | succ j ih =>
      intro s h1 hj hidx
      rw [List.replicate_succ, runKeys_cons]
      cases Nat.eq_zero_or_pos j with
      | inl hj0 =>
          subst hj0
          have hend : s.history_idx + 1 = s.history.length := by omega
          have hc := step_down_clears cap s hend
          have hh := step_down_history cap s
          have hhi : (stepKey cap s Key.down).history_idx = s.history.length := by
            rw [step_down_history_idx, if_pos (by omega)]
            omega
          simp only [List.replicate_zero, runKeys, List.foldl_nil]
          exact ⟨hh, hhi.trans (by rw [← hh]), hc.1, hc.2⟩
      | inr hjpos =>
          have hlt : s.history_idx < s.history.length := by omega
          have hh := step_down_history cap s
          have hhi : (stepKey cap s Key.down).history_idx
              = s.history.length - j := by
            rw [step_down_history_idx, if_pos hlt]
            omega
          have := ih (stepKey cap s Key.down) hjpos (by rw [hh]; omega)
            (by rw [hh, hhi])
          rw [hh] at this
          exact this

theorem length_dropWhile_le {α} (p : α → Bool) (l : List α) :
    (l.dropWhile p).length ≤ l.length := by
  induction l with
  | nil => simp
  | cons a t ih =>
      by_cases h : p a
      · simp only [List.dropWhile_cons, h, if_true]
        exact Nat.le_succ_of_le ih
      · simp [List.dropWhile_cons, h]

theorem csiMatch_some_length (finalOk : Char → Bool) (l r : List Char)
    (h : csiMatch finalOk l = some r) : r.length < l.length := by
  match l with
  | [] => simp [csiMatch] at h
  | [a] => simp [csiMatch] at h
  | a :: b :: t =>
      simp only [csiMatch] at h
      split at h
      · split at h
        · cases hrest : t.dropWhile isParamChar with
          | nil => rw [hrest] at h; simp at h
          | cons f r2 =>
              rw [hrest] at h
              have hlen : (f :: r2).length ≤ t.length := by
                rw [← hrest]; exact length_dropWhile_le _ _
              simp only at h
              split at h
              · have : r = r2 := by injection h with h2; exact h2.symm
                subst this
                simp at hlen ⊢
                omega
              · exact absurd h (by simp)
        · exact absurd h (by simp)
      · exact absurd h (by simp)

theorem scanFuel_eq_filter (ctl : Char → Bool) :
    ∀ (n : Nat) (l : List Char), l.length ≤ n →
      stripScanFuel ctl n l
        = (ansiSubFuel escFinal n l).filter (fun c => !(ctl c)) := by
  intro n
  induction n with
  | zero =>
      intro l hl
      have : l = [] := List.length_eq_zero.mp (by omega)
      subst this
      simp [stripScanFuel, ansiSubFuel]
  | succ n ih =>
      intro l hl
      cases l with
      | nil => simp [stripScanFuel, ansiSubFuel]
      | cons c cs =>
          cases hm : csiMatch escFinal (c :: cs) with
          | some rest =>
              have hr := csiMatch_some_length escFinal _ _ hm
              simp only [stripScanFuel, ansiSubFuel, hm]
              exact ih rest (by simp at hl hr; omega)
          | none =>
              have hcs : cs.length ≤ n := by simp at hl; omega
              simp only [stripScanFuel, ansiSubFuel, hm]
              by_cases hc : ctl c
              · simp [hc, ih cs hcs]
              · simp [hc, ih cs hcs]

theorem remove_escapes_eq_filter (l : List Char) :
    remove_escapes l = (ansiSub escFinal l).filter (fun c => !(ctlAmended c)) := by
  unfold remove_escapes pyReplaceEmpty
  simp only [List.filter_filter]
  apply List.filter_congr
  intro a _
  simp only [ctlAmended, ctlClaimed, Bool.not_or, bne]
  by_cases h1 : a = '\x07' <;> by_cases h2 : a = '\x08' <;> by_cases h3 : a = '\r' <;>
    by_cases h4 : a = '\x0b' <;> by_cases h5 : a = '\x00' <;> by_cases h6 : a = '\x7f' <;>
    simp [h1, h2, h3, h4, h5, h6]

theorem bufferOf_mk_last_source (st : CState) (t v : String) :
    bufferOf { st with last_source := v } t = bufferOf st t := rfl

theorem bufferOf_setBufferOf (st : CState) (t : String) (b : List String) :
    bufferOf (setBufferOf st t b) t = b := by
  unfold bufferOf setBufferOf
  by_cases h : t = "stderr" <;> simp [h]

theorem leadsWith_snoc (pat : List Char) (l : List Char) (x : Char)
    (hx : pat.all (fun c => c != x) = true) :
    leadsWith pat (l ++ [x]) = leadsWith pat l := by
  induction pat generalizing l with
  | nil => simp [leadsWith]
  | cons p ps ih =>
      simp only [List.all_cons, Bool.and_eq_true, bne_iff_ne] at hx
      cases l with
      | nil =>
          simp only [List.nil_append]
          show leadsWith (p :: ps) [x] = leadsWith (p :: ps) []
          simp [leadsWith, hx.1]
      | cons a as =>
          simp only [List.cons_append]
          show (decide (p = a) && leadsWith ps (as ++ [x]))
              = (decide (p = a) && leadsWith ps as)
          rw [ih as (by simpa using hx.2)]

theorem hasSeq_snoc (pat l : List Char) (x : Char)
    (hx : pat.all (fun c => c != x) = true) (hpat : pat ≠ []) :
    hasSeq pat (l ++ [x]) = hasSeq pat l := by
  induction l with
  | nil =>
      simp only [List.nil_append]
      cases pat with
      | nil => exact absurd rfl hpat
      | cons p ps =>
          simp only [List.all_cons, Bool.and_eq_true, bne_iff_ne] at hx
          show (leadsWith (p :: ps) [x] || hasSeq (p :: ps) []) = hasSeq (p :: ps) []
          simp [leadsWith, hasSeq, hx.1]
  | cons a as ih =>
      have hstep : ∀ (c : Char) (t : List Char),
          hasSeq pat (c :: t) = (leadsWith pat (c :: t) || hasSeq pat t) :=
        fun _ _ => rfl
      simp only [List.cons_append, hstep]
      rw [ih]
      have h1 : leadsWith pat (a :: (as ++ [x])) = leadsWith pat (a :: as) := by
        rw [← List.cons_append]
        exact leadsWith_snoc pat (a :: as) x hx
      rw [h1]

/-! ## Claim theorems -/

/-- Claim C2 (Bounded history): with a cap `cap > 0`, submitting `cap + m`
buffers from the initial editor state leaves a history of length exactly
`cap` holding precisely the most recent `cap` submitted buffers in
submission order, and the editor back in a fresh editing state (empty
buffer, cursor index 0). -/
theorem bounded_history (cap m : Nat) (bs : List (List Char))
    (hcap : 0 < cap) (hlen : bs.length = cap + m) :
    (submitAll cap bs initState).history = bs.drop m ∧
    (submitAll cap bs initState).history.length = cap ∧
    (submitAll cap bs initState).current_input = [] ∧
    (submitAll cap bs initState).current_input_idx = 0 := by
  have hne : bs ≠ [] := by
    intro hbs; rw [hbs] at hlen; simp at hlen; omega
  have h1 := submitAll_history cap hcap bs initState (by simp [initState])
  have h2 : trimHist cap (initState.history ++ bs) = bs.drop m := by
    simp [initState, trimHist, hlen]
  have h3 := submitAll_fresh cap bs hne initState
  refine ⟨h1.trans h2, ?_, h3.1, h3.2⟩
  rw [h1.trans h2]
  simp [hlen]

/-- Witness for C2 at cap 2 and three submissions. -/
theorem bounded_history_witness :
    (submitAll 2 [['a'], ['b'], ['c']] initState).history = [['a'], ['b'], ['c']].drop 1 ∧
    (submitAll 2 [['a'], ['b'], ['c']] initState).history.length = 2 ∧
    (submitAll 2 [['a'], ['b'], ['c']] initState).current_input = [] ∧
    (submitAll 2 [['a'], ['b'], ['c']] initState).current_input_idx = 0 :=
  bounded_history 2 1 [['a'], ['b'], ['c']] (by decide) (by decide)

/-- Claim C7 (Basic-edit scenario): from the initial state (empty buffer,
insert mode off), typing `h`, `e`, `l`, pressing Left twice and typing `X`
yields buffer `"hXel"` with the cursor at index 2. -/
theorem basic_edit_scenario :
    (runKeys 200 initState
      [Key.ch 'h', Key.ch 'e', Key.ch 'l', Key.left, Key.left, Key.ch 'X']).current_input
        = "hXel".toList ∧
    (runKeys 200 initState
      [Key.ch 'h', Key.ch 'e', Key.ch 'l', Key.left, Key.left, Key.ch 'X']).current_input_idx
        = 2 := by
  decide

/-- Claim C8 (Word-jump scenario): with buffer `"foo bar baz"` and cursor at
index 11, one Ctrl+Left moves the cursor to 8 (start of `"baz"`), a second
to 4 (start of `"bar"`); the buffer is unchanged. -/
theorem word_jump_scenario :
    (stepKey 200 wordJumpStart Key.ctrl_left).current_input_idx = 8 ∧
    (stepKey 200 (stepKey 200 wordJumpStart Key.ctrl_left) Key.ctrl_left).current_input_idx
      = 4 ∧
    (stepKey 200 (stepKey 200 wordJumpStart Key.ctrl_left) Key.ctrl_left).current_input
      = "foo bar baz".toList := by
  decide

/-- Counterexample to claim C4 as stated: `"a\nb"` contains a newline but
does not end with one, and `Console.__console_write` then appends it to the
pending console buffer instead of clearing the buffer. -/
theorem console_write_cex :
    ('\n' ∈ "a\nb".toList) ∧
    (console_write baseCState "stdout" "a\nb").console_stdout = ["a\nb"] ∧
    (console_write baseCState "stdout" "a\nb").console_stdout ≠ [] := by
  decide

/-- Claim C4, amended: `Console.__console_write` always marks the last
writer as the console; it clears the pending buffer of the target stream
exactly when the formatted text ends with a newline, and otherwise appends
the escape-stripped text (after which the buffer is additionally cleared
when its lowercased join ends with the literal `ESC 1 k` / `ESC 2 k`
markers — the hypothesis below rules that case out). -/
theorem console_write_amended (st : CState) (target_name text : String) :
    (console_write st target_name text).last_source = "c" ∧
    (strEndsWith (formatTextStr st.enable_colors text) "\n" = true →
      bufferOf (console_write st target_name text) target_name = []) ∧
    (strEndsWith (formatTextStr st.enable_colors text) "\n" = false →
      (strEndsWith (String.mk (pyLower (String.join (bufferOf st target_name
            ++ [removeEscapesStr (formatTextStr st.enable_colors text)])).toList))
          "\x1b1k"
        || strEndsWith (String.mk (pyLower (String.join (bufferOf st target_name
            ++ [removeEscapesStr (formatTextStr st.enable_colors text)])).toList))
          "\x1b2k") = false →
      bufferOf (console_write st target_name text) target_name
        = bufferOf st target_name
            ++ [removeEscapesStr (formatTextStr st.enable_colors text)]) := by
  refine ⟨rfl, ?_, ?_⟩
  · intro hnl
    unfold console_write
    simp only [hnl, if_true, bufferOf_mk_last_source, bufferOf_setBufferOf]
    split <;> rfl
  · intro hnl hmark
    unfold console_write
    simp only [hnl, Bool.false_eq_true, if_false, bufferOf_mk_last_source,
               bufferOf_setBufferOf]
    simp only [hmark, Bool.false_eq_true, if_false]

/-- Witness for the amended C4: a line ending in a newline clears the
pending stdout buffer and marks the console as last writer. -/
theorem console_write_amended_witness :
    (console_write baseCState "stdout" "ab\n").last_source = "c" ∧
    bufferOf (console_write baseCState "stdout" "ab\n") "stdout" = [] :=
  ⟨(console_write_amended baseCState "stdout" "ab\n").1,
   (console_write_amended baseCState "stdout" "ab\n").2.1 (by decide)⟩

/-- Counterexample to claim C6 as stated: with an empty pending console
buffer but the writer-identity marker still set to the console (reachable:
the console's previous write ended in a newline), a `Console.writeln` call
emits `\r ESC[2K ESC[0m` — an erase-line sequence — before the new line,
because the final current-line erase in `Console.erase_console_output`
(console.py:338-341) sits outside the `console_output_len > 0` guard. -/
theorem idempotent_erase_cex :
    ({ baseCState with last_source := "c" } : CState).console_stdout = [] ∧
    hasSeq eraseSeq
        (String.join (writeln_op { baseCState with last_source := "c" }
          80 "hello" none none).2).toList = true := by
  decide

theorem rstripEndsNewline_append_nl (t : String) :
    rstripEndsNewline (t ++ "\n") = true := by
  unfold rstripEndsNewline
  have h : (t ++ "\n").toList = t.toList ++ ['\n'] := by
    show (t ++ "\n").data = t.data ++ ['\n']
    simp
  rw [h, List.reverse_append]
  simp

/-- Claim C6, amended: when the last writer was **not** the console (so the
pending buffer really has nothing displayed) and the pending stdout buffer
is empty with no callbacks registered, `Console.writeln` emits exactly the
caller's formatted line (newline-terminated) and nothing else — in
particular no erase-line sequence beyond any the caller's own text
contains. -/
theorem idempotent_erase_amended (st : CState) (maxcols : Nat) (text : String)
    (hsrc : st.last_source ≠ "c") (hbuf : st.console_stdout = [])
    (hcb1 : st.get_console_stdout = none) (hcb2 : st.get_console_prompt = none) :
    (writeln_op st maxcols text none none).2
      = [if rstripEndsNewline (formatTextStr st.enable_colors text)
         then formatTextStr st.enable_colors text
         else formatTextStr st.enable_colors text ++ "\n"] ∧
    (st.enable_colors = true → hasSeq eraseSeq text.toList = false →
      ∀ chunk ∈ (writeln_op st maxcols text none none).2,
        hasSeq eraseSeq chunk.toList = false) := by
  have hjoin : getConsoleStdoutStr st = "" := by
    rw [getConsoleStdoutStr, hcb1, hbuf]; decide
  have hprompt : getConsolePromptStr st = "" := by
    rw [getConsolePromptStr, hcb2, hbuf]; decide
  have herase : erase_console_output_emit st maxcols "stdout" = [] := by
    unfold erase_console_output_emit
    rw [if_pos hsrc]
  have hskip : (st.last_source = "c" ∧ ("" : String) = "c") ↔ False := by simp
  have houtname : (("stdout" : String) = "stderr") ↔ False := by simp
  have hline : (("" : String) ≠ "" ∨ ("" : String) ≠ "") ↔ False := by simp
  have htriv : (("" : String) = "") ↔ True := by simp
  have hprev0 : pyRstripNl (formatTextStr st.enable_colors "") = "" := rfl
  have hlen0 : consoleLenStr "" = 0 := rfl
  have hends : ∀ t : String,
      rstripEndsNewline (if rstripEndsNewline t then t else t ++ "\n") = true := by
    intro t
    by_cases hr : rstripEndsNewline t = true
    · simp [hr]
    · simp [hr, rstripEndsNewline_append_nl]
  have hemit : (writeln_op st maxcols text none none).2
      = [if rstripEndsNewline (formatTextStr st.enable_colors text)
         then formatTextStr st.enable_colors text
         else formatTextStr st.enable_colors text ++ "\n"] := by
    unfold writeln_op locked_writeln
    dsimp only
    simp only [fgColor, bgColor, hline, if_false, hskip, houtname, hjoin,
               htriv, if_true, hprompt, herase, hprev0, hlen0, hends,
               Nat.lt_irrefl, List.nil_append, List.append_nil]
  refine ⟨hemit, ?_⟩
  intro hec htext chunk hchunk
  rw [hemit] at hchunk
  simp only [List.mem_singleton] at hchunk
  subst hchunk
  by_cases ht0 : text = ""
  · subst ht0
    have hf0 : formatTextStr st.enable_colors "" = "" := rfl
    rw [hf0]
    decide
  · have hf : formatTextStr st.enable_colors text = text := by
      simp [formatTextStr, ht0, hec]
    rw [hf]
    by_cases hr : rstripEndsNewline text = true
    · simp only [hr, if_true]
      exact htext
    · simp only [hr, Bool.false_eq_true, if_false]
      have hlist : (text ++ "\n").toList = text.toList ++ ['\n'] := by
        show (text ++ "\n").data = text.data ++ ['\n']
        simp
      rw [hlist, hasSeq_snoc eraseSeq text.toList '\n' (by decide) (by decide)]
      exact htext

/-- Witness for the amended C6: from a fresh non-console state, writing
`"hello"` emits exactly `"hello\n"` and no erase sequence. -/
theorem idempotent_erase_amended_witness :
    (writeln_op baseCState 80 "hello" none none).2
      = [if rstripEndsNewline (formatTextStr baseCState.enable_colors "hello")
         then formatTextStr baseCState.enable_colors "hello"
         else formatTextStr baseCState.enable_colors "hello" ++ "\n"] ∧
    (baseCState.enable_colors = true → hasSeq eraseSeq "hello".toList = false →
      ∀ chunk ∈ (writeln_op baseCState 80 "hello" none none).2,
        hasSeq eraseSeq chunk.toList = false) :=
  idempotent_erase_amended baseCState 80 "hello" (by decide) (by decide)
    (by decide) (by decide)

/-- Counterexample to claim C5 as stated: on `"\x1b[31\rm"` the code's
visible length (`Console.len`, escapes stripped before colors) is 0, while
the claimed composition `len(strip_escapes(strip_colors(s)))` (colors
first) gives 5 — stripping the carriage return first turns `"\x1b[31\rm"`
into a color sequence the color pass then removes; the two orders do not
agree for all inputs. -/
theorem visible_len_order_cex :
    console_len "\x1b[31\rm".toList = 0 ∧
    visible_len_claimed "\x1b[31\rm".toList = 5 ∧
    console_len "\x1b[31\rm".toList ≠ visible_len_claimed "\x1b[31\rm".toList := by
  decide

/-- Claim C5, amended: `Console.len(s)` equals the length of
`strip_colors(strip_escapes(s))` — non-color escapes stripped first, then
colors — and there exists an input on which the opposite order (as the
claim stated it) differs. -/
theorem visible_len_amended :
    (∀ l : List Char, console_len l = (ansiSub colorFinal (remove_escapes l)).length) ∧
    (∃ l : List Char, console_len l ≠ visible_len_claimed l) :=
  ⟨fun _ => rfl, ⟨"\x1b[31\rm".toList, by decide⟩⟩

/-- Counterexample to claim C9 as stated: `remove_escapes` also removes the
carriage return, which is neither a CSI sequence nor in the claim's list of
control bytes; on `"a\rb"` the code yields `"ab"` while the claimed
characterization leaves the string unchanged. -/
theorem strip_escapes_claim_cex :
    remove_escapes "a\rb".toList = "ab".toList ∧
    strip_escapes_claimed "a\rb".toList = "a\rb".toList ∧
    remove_escapes "a\rb".toList ≠ strip_escapes_claimed "a\rb".toList := by
  decide

/-- Claim C9, amended: `remove_escapes` removes exactly the non-color ANSI
CSI sequences with numeric parameters plus the control bytes bell,
backspace, carriage return, vertical tab, null and delete, and leaves every
other character unchanged (in particular malformed escape fragments pass
through, and the operation is total). -/
theorem strip_escapes_characterization (l : List Char) :
    remove_escapes l = strip_escapes_amended l := by
  rw [remove_escapes_eq_filter]
  unfold strip_escapes_amended ansiSub
  exact (scanFuel_eq_filter ctlAmended l.length l le_rfl).symm

/-- Claim C3 (Cursor-index invariant): for every keystroke, if
`0 ≤ cursor ≤ len(buffer)` holds before the transition it holds after it
(the lower bound is carried by the `Nat` type; every cursor move is clamped
inside `move_cursor_left` / `move_cursor_right`). -/
theorem cursor_index_invariant (cap : Nat) (s : EState) (k : Key)
    (h : s.current_input_idx ≤ s.current_input.length) :
    (stepKey cap s k).current_input_idx ≤ (stepKey cap s k).current_input.length :=
  stepKey_cursor_le cap s k

/-- Witness for C3: a Backspace at cursor 1 in buffer `"ab"`. -/
theorem cursor_index_invariant_witness :
    (stepKey 200 { insert_mode := false, history := [], history_idx := 0
                   current_input := ['a', 'b'], current_input_idx := 1 }
        Key.backspace).current_input_idx
      ≤ (stepKey 200 { insert_mode := false, history := [], history_idx := 0
                       current_input := ['a', 'b'], current_input_idx := 1 }
          Key.backspace).current_input.length :=
  cursor_index_invariant 200
    { insert_mode := false, history := [], history_idx := 0
      current_input := ['a', 'b'], current_input_idx := 1 }
    Key.backspace (by decide)

/-- Counterexample to claim C1 as stated: from a fresh editing state with
one history entry and a non-empty live input line (`liveInputState`), Up
then Down (`k = 1 ≤ h = 1`) does not restore the live buffer — the Down
step past the newest entry clears the input instead of restoring it. -/
theorem history_roundtrip_cex :
    liveInputState.history_idx = liveInputState.history.length ∧
    1 ≤ liveInputState.history.length ∧
    liveInputState.current_input_idx ≤ liveInputState.current_input.length ∧
    (runKeys 200 liveInputState
        (List.replicate 1 Key.up ++ List.replicate 1 Key.down)).current_input
      ≠ liveInputState.current_input := by
  decide

/-- Claim C1, amended: from a fresh editing state (history cursor at
`len(history)`), pressing Up `k` times then Down `k` times (`1 ≤ k ≤ h`)
does not restore the pre-Up buffer in general: it leaves the editor with an
empty buffer and cursor 0 (history itself and the history cursor are
restored).  In particular the round-trip restores the buffer state exactly
when the live input was empty with cursor 0. -/
theorem history_roundtrip_amended (cap k : Nat) (s : EState)
    (hfresh : s.history_idx = s.history.length)
    (hk1 : 1 ≤ k) (hk2 : k ≤ s.history.length) :
    (runKeys cap s (List.replicate k Key.up ++ List.replicate k Key.down)).current_input
        = [] ∧
    (runKeys cap s (List.replicate k Key.up ++ List.replicate k Key.down)).current_input_idx
        = 0 ∧
    (runKeys cap s (List.replicate k Key.up ++ List.replicate k Key.down)).history
        = s.history ∧
    (runKeys cap s (List.replicate k Key.up ++ List.replicate k Key.down)).history_idx
        = s.history.length ∧
    (((runKeys cap s (List.replicate k Key.up ++ List.replicate k Key.down)).current_input
          = s.current_input
      ∧ (runKeys cap s (List.replicate k Key.up ++ List.replicate k Key.down)).current_input_idx
          = s.current_input_idx)
      ↔ (s.current_input = [] ∧ s.current_input_idx = 0)) := by
  have hsplit : runKeys cap s (List.replicate k Key.up ++ List.replicate k Key.down)
      = runKeys cap (runKeys cap s (List.replicate k Key.up))
          (List.replicate k Key.down) := by
    simp [runKeys, List.foldl_append]
  have hups := upN_facts cap k s (by omega)
  have hdowns := downN_clears cap k (runKeys cap s (List.replicate k Key.up))
    hk1 (by rw [hups.1]; exact hk2) (by rw [hups.1, hups.2, hfresh])
  rw [hups.1] at hdowns
  rw [hsplit]
  refine ⟨hdowns.2.2.1, hdowns.2.2.2, hdowns.1, hdowns.2.1, ?_⟩
  rw [hdowns.2.2.1, hdowns.2.2.2]
  constructor
  · rintro ⟨h1, h2⟩
    exact ⟨h1.symm, h2.symm⟩
  · rintro ⟨h1, h2⟩
    exact ⟨h1.symm, h2.symm⟩

/-- Witness for the amended C1 at `liveInputState` with `k = 1`: the
round-trip ends with an empty buffer, and does not restore the non-empty
live input. -/
theorem history_roundtrip_amended_witness :
    (runKeys 200 liveInputState
        (List.replicate 1 Key.up ++ List.replicate 1 Key.down)).current_input = [] ∧
    (runKeys 200 liveInputState
        (List.replicate 1 Key.up ++ List.replicate 1 Key.down)).current_input_idx = 0 ∧
    (runKeys 200 liveInputState
        (List.replicate 1 Key.up ++ List.replicate 1 Key.down)).history
      = liveInputState.history ∧
    (runKeys 200 liveInputState
        (List.replicate 1 Key.up ++ List.replicate 1 Key.down)).history_idx
      = liveInputState.history.length ∧
    (((runKeys 200 liveInputState
          (List.replicate 1 Key.up ++ List.replicate 1 Key.down)).current_input
        = liveInputState.current_input
      ∧ (runKeys 200 liveInputState
            (List.replicate 1 Key.up ++ List.replicate 1 Key.down)).current_input_idx
        = liveInputState.current_input_idx)
      ↔ (liveInputState.current_input = [] ∧ liveInputState.current_input_idx = 0)) :=
  history_roundtrip_amended 200 1 liveInputState (by decide) (by decide) (by decide)

/-- Claim C10: on Enter the line handed back is the buffer joined and
stripped of leading and trailing whitespace, while the history entry pushed
stores the unstripped buffer verbatim; the main loop skips (does not forward
to the bot) exactly the lines that are empty after stripping. -/
theorem submitted_line_stripped (cap : Nat) (s : EState) :
    (applyKey cap s Key.enter).2 = some (pyStrip s.current_input) ∧
    (applyKey cap s Key.enter).1.history.getLast? = some s.current_input ∧
    (mainLoopAction (pyStrip s.current_input) = LoopAction.skip
      ↔ pyStrip s.current_input = []) := by
  refine ⟨rfl, ?_, ?_⟩
  · show (if 0 < cap ∧ cap < (s.history ++ [s.current_input]).length
          then (s.history ++ [s.current_input]).drop
                ((s.history ++ [s.current_input]).length - cap)
          else s.history ++ [s.current_input]).getLast? = some s.current_input
    split
    · next hc =>
        rw [getLast?_drop_of_lt]
        · exact List.getLast?_concat _
        · simp; omega
    · exact List.getLast?_concat _
  · by_cases h : pyStrip s.current_input = []
    · simp [mainLoopAction, h]
    · simp only [mainLoopAction, if_neg h]
      constructor
      · intro hc
        split at hc <;> simp_all
      · intro hc
        exact absurd hc h

end OsuTourney
